import Mathlib

/-!
# Verification of the smif composition engine against its specification

Shallow embedding of the system-of-systems composition code of the smif
repository (`smif/controller.py`, `smif/decision/decision.py`), together with
theorems settling the specification claims about dependency-graph building,
run-order computation, run-mode selection, pre-specified planning and the
decision loop.

Conventions:
* Python dicts keyed by name are embedded as association lists in insertion
  order (Python dicts preserve insertion order).
* Python exceptions are embedded as `Except`: `raise X(msg)` becomes
  `Except.error`, carrying either the message string or a structured error
  value whose `message` function renders the Python message.
* `networkx.DiGraph` is embedded as a list of nodes and a list of edges, with
  `add_node`/`add_edge` deduplicating as networkx does;
  `networkx.topological_sort` / `networkx.is_directed_acyclic_graph` are
  embedded by a deterministic Kahn elimination (`topoAux`): repeatedly remove
  the first remaining node with no incoming edge from a remaining node.  Any
  order it returns is a topological order of the directed graph (edge `u → v`
  implies `u` is listed before `v`), which is the contract of
  `networkx.topological_sort`.
-/

namespace Smif

/-- A dependency of a model input, as stored on `model.inputs.dependencies`
in `smif/controller.py`: the input's `name` and the `from_model` it is
supplied by. -/
structure Dependency where
  name : String
  from_model : String
deriving DecidableEq, Repr

/-- A sector model as seen by `SosModelBuilder._check_dependencies`:
its unique `name` and the dependencies declared on its inputs. -/
structure SectorModel where
  name : String
  dependencies : List Dependency
deriving DecidableEq, Repr

/-- The exceptions `SosModelBuilder._check_dependencies` can raise:
the `AssertionError` for a missing dependency and the `NotImplementedError`
for a cyclic graph. -/
inductive BuildError where
  | missingDependency (model_name dep_name from_model : String)
  | cycleError
deriving DecidableEq, Repr

/-- The Python exception message carried by each `BuildError`
(`controller.py` lines 411-413 and 417). -/
def BuildError.message : BuildError → String
  | .missingDependency mn dn fm =>
      "Missing dependency: " ++ mn ++ " depends on " ++ dn ++ " from " ++ fm ++
      ", which is not supplied."
  | .cycleError => "Graph of dependencies contains a cycle."

/-- `networkx.DiGraph`: nodes and directed edges, in insertion order. -/
structure Digraph where
  nodes : List String
  edges : List (String × String)
deriving DecidableEq, Repr

/-- `DiGraph.add_node`: adding an existing node is a no-op. -/
def Digraph.addNode (g : Digraph) (n : String) : Digraph :=
  if n ∈ g.nodes then g else { g with nodes := g.nodes ++ [n] }

/-- `DiGraph.add_nodes_from`. -/
def Digraph.addNodes (g : Digraph) (ns : List String) : Digraph :=
  ns.foldl Digraph.addNode g

/-- `DiGraph.add_edge`: missing endpoints are added as nodes; adding an
existing edge is a no-op. -/
def Digraph.addEdge (g : Digraph) (u v : String) : Digraph :=
  if (u, v) ∈ ((g.addNode u).addNode v).edges then (g.addNode u).addNode v
  else { (g.addNode u).addNode v with edges := ((g.addNode u).addNode v).edges ++ [(u, v)] }

/-- A node `n` is a source of the subgraph induced by the remaining nodes
`ns`: no edge points into `n` from a node still in `ns`. -/
def isSource (edges : List (String × String)) (ns : List String) (n : String) : Bool :=
  edges.all fun e => !(decide (e.2 = n) && decide (e.1 ∈ ns))

/-- Kahn elimination with fuel: repeatedly pick the first remaining node with
no incoming edge from a remaining node and emit it; `none` when the remaining
nodes have no source (a cycle) or the fuel runs out. -/
def topoAux (edges : List (String × String)) : Nat → List String → Option (List String)
  | _, [] => some []
  | 0, _ :: _ => none
  | Nat.succ fuel, n0 :: rest =>
      match (n0 :: rest).find? (fun n => isSource edges (n0 :: rest) n) with
      | none => none
      | some n => Option.map (fun l => n :: l) (topoAux edges fuel ((n0 :: rest).erase n))

/-- `networkx.topological_sort` applied to the graph: `some order` listing,
for every edge `u → v`, `u` before `v`; `none` when the graph is cyclic. -/
def topological_sort (g : Digraph) : Option (List String) :=
  topoAux g.edges g.nodes.length g.nodes

/-- `networkx.is_directed_acyclic_graph`. -/
def is_directed_acyclic_graph (g : Digraph) : Bool :=
  (topological_sort g).isSome

/-- Inner loop of `_check_dependencies` for the dependencies of one model:
raise `AssertionError` for a dependency whose `from_model` is neither an
available model nor the literal `"scenario"`, otherwise
`add_edge(model_name, dep.from_model)`. -/
def addDepEdges (mn : String) (avail : List String) :
    Digraph → List Dependency → Except BuildError Digraph
  | g, [] => Except.ok g
  | g, dep :: rest =>
      if dep.from_model ∉ avail ∧ dep.from_model ≠ "scenario" then
        Except.error (BuildError.missingDependency mn dep.name dep.from_model)
      else
        addDepEdges mn avail (g.addEdge mn dep.from_model) rest

/-- Outer loop of `_check_dependencies` over `self.sos_model.model_list`. -/
def buildGraph (avail : List String) :
    Digraph → List SectorModel → Except BuildError Digraph
  | g, [] => Except.ok g
  | g, m :: rest =>
      match addDepEdges m.name avail g m.dependencies with
      | Except.error e => Except.error e
      | Except.ok g2 => buildGraph avail g2 rest

/-- `SosModelBuilder._check_dependencies` (`controller.py` lines 399-419):
build a `DiGraph` with one node per available model, add one edge
`(model, dep.from_model)` per declared dependency (raising for a missing
`from_model` other than `"scenario"`), then raise `NotImplementedError`
unless the graph is acyclic; on success the graph is returned (assigned to
`self.sos_model.dependency_graph`). -/
def check_dependencies (model_list : List SectorModel) : Except BuildError Digraph :=
  match buildGraph (model_list.map SectorModel.name)
      (Digraph.addNodes ⟨[], []⟩ (model_list.map SectorModel.name)) model_list with
  | Except.error e => Except.error e
  | Except.ok g =>
      if is_directed_acyclic_graph g then Except.ok g else Except.error BuildError.cycleError

/-- The raw dependency edges of a configuration: `(consumer, producer)` as
`_check_dependencies` adds them. -/
abbrev DepEdge (model_list : List SectorModel) (u v : String) : Prop :=
  ∃ m ∈ model_list, m.name = u ∧ ∃ d ∈ m.dependencies, d.from_model = v

/-- A configuration's dependency graph contains a cycle: a nonempty set `S`
of nodes in which every node has an in-neighbour inside `S` (the vertex set
of any directed cycle is such an `S`, and any such `S` contains a directed
cycle). -/
def HasCycle (model_list : List SectorModel) (S : List String) : Prop :=
  S ≠ [] ∧ ∀ v ∈ S, ∃ u ∈ S, DepEdge model_list u v

/-- Every edge of the graph has both endpoints among the nodes. -/
def Digraph.Closed (g : Digraph) : Prop :=
  ∀ e ∈ g.edges, e.1 ∈ g.nodes ∧ e.2 ∈ g.nodes

theorem Digraph.edges_addNode (g : Digraph) (n : String) :
    (g.addNode n).edges = g.edges := by
  unfold Digraph.addNode; split <;> rfl

theorem Digraph.mem_nodes_addNode_of_mem {g : Digraph} {x : String} (n : String)
    (h : x ∈ g.nodes) : x ∈ (g.addNode n).nodes := by
  unfold Digraph.addNode; split
  · exact h
  · simp only [List.mem_append, List.mem_singleton]; exact Or.inl h

theorem Digraph.self_mem_nodes_addNode (g : Digraph) (n : String) :
    n ∈ (g.addNode n).nodes := by
  unfold Digraph.addNode; split
  · assumption
  · simp

theorem Digraph.nodes_addEdge (g : Digraph) (u v : String) :
    (g.addEdge u v).nodes = ((g.addNode u).addNode v).nodes := by
  unfold Digraph.addEdge; split <;> rfl

theorem Digraph.mem_edges_addEdge_of_mem {g : Digraph} {e : String × String}
    (u v : String) (h : e ∈ g.edges) : e ∈ (g.addEdge u v).edges := by
  have h2 : e ∈ ((g.addNode u).addNode v).edges := by
    rw [Digraph.edges_addNode, Digraph.edges_addNode]; exact h
  unfold Digraph.addEdge; split
  · exact h2
  · simp only [List.mem_append, List.mem_singleton]; exact Or.inl h2

theorem Digraph.self_mem_edges_addEdge (g : Digraph) (u v : String) :
    (u, v) ∈ (g.addEdge u v).edges := by
  unfold Digraph.addEdge; split
  · assumption
  · simp

theorem Digraph.mem_nodes_addEdge_of_mem {g : Digraph} {x : String}
    (u v : String) (h : x ∈ g.nodes) : x ∈ (g.addEdge u v).nodes := by
  rw [Digraph.nodes_addEdge]
  exact Digraph.mem_nodes_addNode_of_mem v (Digraph.mem_nodes_addNode_of_mem u h)

theorem Digraph.Closed.addEdge {g : Digraph} (hc : g.Closed) (u v : String) :
    (g.addEdge u v).Closed := by
  intro e he
  rw [Digraph.nodes_addEdge]
  have hrw : ((g.addNode u).addNode v).edges = g.edges := by
    rw [Digraph.edges_addNode, Digraph.edges_addNode]
  unfold Digraph.addEdge at he
  split at he
  · rw [hrw] at he
    obtain ⟨h1, h2⟩ := hc e he
    exact ⟨Digraph.mem_nodes_addNode_of_mem v (Digraph.mem_nodes_addNode_of_mem u h1),
           Digraph.mem_nodes_addNode_of_mem v (Digraph.mem_nodes_addNode_of_mem u h2)⟩
  · simp only [List.mem_append, List.mem_singleton] at he
    rcases he with he | he
    · rw [hrw] at he
      obtain ⟨h1, h2⟩ := hc e he
      exact ⟨Digraph.mem_nodes_addNode_of_mem v (Digraph.mem_nodes_addNode_of_mem u h1),
             Digraph.mem_nodes_addNode_of_mem v (Digraph.mem_nodes_addNode_of_mem u h2)⟩
    · subst he
      refine ⟨?_, Digraph.self_mem_nodes_addNode _ v⟩
      exact Digraph.mem_nodes_addNode_of_mem v (Digraph.self_mem_nodes_addNode g u)

theorem addDepEdges_ok {mn : String} {avail : List String} {deps : List Dependency}
    {g g' : Digraph} (h : addDepEdges mn avail g deps = Except.ok g') :
    (∀ e ∈ g.edges, e ∈ g'.edges) ∧
    (∀ d ∈ deps, (mn, d.from_model) ∈ g'.edges) ∧
    (g.Closed → g'.Closed) ∧ (∀ x ∈ g.nodes, x ∈ g'.nodes) := by
  induction deps generalizing g with
  | nil =>
      simp only [addDepEdges, Except.ok.injEq] at h
      subst h
      exact ⟨fun e he => he, by simp, id, fun x hx => hx⟩
  | cons dep rest ih =>
      unfold addDepEdges at h
      split at h
      · exact absurd h (by simp)
      · obtain ⟨h1, h2, h3, h4⟩ := ih h
        refine ⟨?_, ?_, ?_, ?_⟩
        · intro e he
          exact h1 e (Digraph.mem_edges_addEdge_of_mem mn dep.from_model he)
        · intro d hd
          rcases List.mem_cons.mp hd with hd' | hd'
          · rw [hd']
            exact h1 _ (Digraph.self_mem_edges_addEdge g mn dep.from_model)
          · exact h2 d hd'
        · intro hc
          exact h3 (hc.addEdge mn dep.from_model)
        · intro x hx
          exact h4 x (Digraph.mem_nodes_addEdge_of_mem mn dep.from_model hx)

theorem addDepEdges_error {mn : String} {avail : List String} {deps : List Dependency}
    {g : Digraph} {e : BuildError} (h : addDepEdges mn avail g deps = Except.error e) :
    ∃ dn fm, e = BuildError.missingDependency mn dn fm ∧ fm ∉ avail ∧ fm ≠ "scenario" := by
  induction deps generalizing g with
  | nil => exact absurd h (by simp [addDepEdges])
  | cons dep rest ih =>
      unfold addDepEdges at h
      split at h
      · rename_i hcond
        simp only [Except.error.injEq] at h
        exact ⟨dep.name, dep.from_model, h.symm, hcond.1, hcond.2⟩
      · exact ih h

theorem addDepEdges_no_error (mn : String) {avail : List String} {deps : List Dependency}
    (hdeps : ∀ d ∈ deps, d.from_model ∈ avail ∨ d.from_model = "scenario") :
    ∀ g : Digraph, ∃ g', addDepEdges mn avail g deps = Except.ok g' := by
  induction deps with
  | nil => exact fun g => ⟨g, rfl⟩
  | cons dep rest ih =>
      intro g
      have hd := hdeps dep (List.mem_cons_self dep rest)
      have hrest : ∀ d ∈ rest, d.from_model ∈ avail ∨ d.from_model = "scenario" :=
        fun d hd' => hdeps d (List.mem_cons_of_mem dep hd')
      obtain ⟨g', hg'⟩ := ih hrest (g.addEdge mn dep.from_model)
      refine ⟨g', ?_⟩
      unfold addDepEdges
      split
      · rename_i hcond
        rcases hd with hd | hd
        · exact absurd hd hcond.1
        · exact absurd hd hcond.2
      · exact hg'

theorem addDepEdges_fails (mn : String) {avail : List String} {deps : List Dependency}
    (hbad : ∃ d ∈ deps, d.from_model ∉ avail ∧ d.from_model ≠ "scenario") :
    ∀ g : Digraph, ∃ e, addDepEdges mn avail g deps = Except.error e := by
  induction deps with
  | nil => simp at hbad
  | cons dep rest ih =>
      intro g
      by_cases hdep : dep.from_model ∉ avail ∧ dep.from_model ≠ "scenario"
      · exact ⟨BuildError.missingDependency mn dep.name dep.from_model, by
          unfold addDepEdges; rw [if_pos hdep]⟩
      · have hrest : ∃ d ∈ rest, d.from_model ∉ avail ∧ d.from_model ≠ "scenario" := by
          rcases hbad with ⟨d, hd, hdprop⟩
          rcases List.mem_cons.mp hd with hd' | hd'
          · exact absurd (hd' ▸ hdprop) hdep
          · exact ⟨d, hd', hdprop⟩
        obtain ⟨e, he⟩ := ih hrest (g.addEdge mn dep.from_model)
        refine ⟨e, ?_⟩
        unfold addDepEdges
        rw [if_neg hdep]
        exact he

theorem buildGraph_ok {avail : List String} {ms : List SectorModel}
    {g g' : Digraph} (h : buildGraph avail g ms = Except.ok g') :
    (∀ e ∈ g.edges, e ∈ g'.edges) ∧
    (∀ m ∈ ms, ∀ d ∈ m.dependencies, (m.name, d.from_model) ∈ g'.edges) ∧
    (g.Closed → g'.Closed) ∧ (∀ x ∈ g.nodes, x ∈ g'.nodes) := by
  induction ms generalizing g with
  | nil =>
      simp only [buildGraph, Except.ok.injEq] at h
      subst h
      exact ⟨fun e he => he, by simp, id, fun x hx => hx⟩
  | cons m rest ih =>
      unfold buildGraph at h
      split at h
      · exact absurd h (by simp)
      · rename_i g2 hadd
        obtain ⟨h1, h2, h3, h4⟩ := ih h
        obtain ⟨a1, a2, a3, a4⟩ := addDepEdges_ok hadd
        refine ⟨fun e he => h1 e (a1 e he), ?_, fun hc => h3 (a3 hc),
                fun x hx => h4 x (a4 x hx)⟩
        intro m' hm' d hd
        rcases List.mem_cons.mp hm' with hm'' | hm''
        · rw [hm'']
          rw [hm''] at hd
          exact h1 _ (a2 d hd)
        · exact h2 m' hm'' d hd

theorem buildGraph_error {avail : List String} {ms : List SectorModel}
    {g : Digraph} {e : BuildError} (h : buildGraph avail g ms = Except.error e) :
    ∃ mn dn fm, e = BuildError.missingDependency mn dn fm ∧ fm ∉ avail ∧ fm ≠ "scenario" := by
  induction ms generalizing g with
  | nil => exact absurd h (by simp [buildGraph])
  | cons m rest ih =>
      unfold buildGraph at h
      split at h
      · rename_i e' hadd
        simp only [Except.error.injEq] at h
        obtain ⟨dn, fm, hshape, h1, h2⟩ := addDepEdges_error hadd
        exact ⟨m.name, dn, fm, h ▸ hshape, h1, h2⟩
      · exact ih h

theorem buildGraph_no_error {avail : List String} {ms : List SectorModel}
    (hdeps : ∀ m ∈ ms, ∀ d ∈ m.dependencies, d.from_model ∈ avail ∨ d.from_model = "scenario") :
    ∀ g : Digraph, ∃ g', buildGraph avail g ms = Except.ok g' := by
  induction ms with
  | nil => exact fun g => ⟨g, rfl⟩
  | cons m rest ih =>
      intro g
      obtain ⟨g2, hg2⟩ :=
        addDepEdges_no_error m.name
          (hdeps m (List.mem_cons_self m rest)) g
      obtain ⟨g', hg'⟩ := ih (fun m' hm' => hdeps m' (List.mem_cons_of_mem m hm')) g2
      refine ⟨g', ?_⟩
      unfold buildGraph
      rw [hg2]
      exact hg'

theorem buildGraph_fails {avail : List String} {ms : List SectorModel}
    (hbad : ∃ m ∈ ms, ∃ d ∈ m.dependencies, d.from_model ∉ avail ∧ d.from_model ≠ "scenario") :
    ∀ g : Digraph, ∃ e, buildGraph avail g ms = Except.error e := by
  induction ms with
  | nil => simp at hbad
  | cons m rest ih =>
      intro g
      by_cases hm : ∃ d ∈ m.dependencies, d.from_model ∉ avail ∧ d.from_model ≠ "scenario"
      · obtain ⟨e, he⟩ := addDepEdges_fails m.name hm g
        refine ⟨e, ?_⟩
        unfold buildGraph
        rw [he]
      · have hrest : ∃ m' ∈ rest, ∃ d ∈ m'.dependencies,
            d.from_model ∉ avail ∧ d.from_model ≠ "scenario" := by
          rcases hbad with ⟨m', hm', hdprop⟩
          rcases List.mem_cons.mp hm' with hm'' | hm''
          · exact absurd (hm'' ▸ hdprop) hm
          · exact ⟨m', hm'', hdprop⟩
        cases hres : addDepEdges m.name avail g m.dependencies with
        | error e => exact ⟨e, by unfold buildGraph; rw [hres]⟩
        | ok g2 =>
            obtain ⟨e, he⟩ := ih hrest g2
            exact ⟨e, by unfold buildGraph; rw [hres]; exact he⟩

theorem Digraph.edges_addNodes (g : Digraph) (ns : List String) :
    (g.addNodes ns).edges = g.edges := by
  induction ns generalizing g with
  | nil => rfl
  | cons n rest ih =>
      show ((g.addNode n).addNodes rest).edges = g.edges
      rw [ih, Digraph.edges_addNode]

/-- If a nonempty node set `S` has, for every node, an in-neighbour inside
`S`, Kahn elimination can never empty the node list: no node of `S` is ever a
source, so `topoAux` returns `none`. -/
theorem topoAux_eq_none_of_cycle {edges : List (String × String)} {S : List String}
    (hS : S ≠ []) (hin : ∀ v ∈ S, ∃ u ∈ S, (u, v) ∈ edges) :
    ∀ (fuel : Nat) (ns : List String), (∀ v ∈ S, v ∈ ns) → topoAux edges fuel ns = none := by
  intro fuel
  induction fuel with
  | zero =>
      intro ns hsub
      cases ns with
      | nil =>
          obtain ⟨v, hv⟩ := List.exists_mem_of_ne_nil S hS
          exact absurd (hsub v hv) (List.not_mem_nil v)
      | cons n0 rest => rfl
  | succ fuel ih =>
      intro ns hsub
      cases ns with
      | nil =>
          obtain ⟨v, hv⟩ := List.exists_mem_of_ne_nil S hS
          exact absurd (hsub v hv) (List.not_mem_nil v)
      | cons n0 rest =>
          cases hfind : (n0 :: rest).find? (fun n => isSource edges (n0 :: rest) n) with
          | none => simp [topoAux, hfind]
          | some n =>
              have hsrc : isSource edges (n0 :: rest) n = true := List.find?_some hfind
              have hnS : n ∉ S := by
                intro hnS
                obtain ⟨u, huS, hedge⟩ := hin n hnS
                have hu : u ∈ n0 :: rest := hsub u huS
                unfold isSource at hsrc
                have hall := List.all_eq_true.mp hsrc (u, n) hedge
                simp [hu] at hall
              have hsub' : ∀ v ∈ S, v ∈ (n0 :: rest).erase n := by
                intro v hv
                have hvne : v ≠ n := fun hEq => hnS (hEq ▸ hv)
                exact (List.mem_erase_of_ne hvne).mpr (hsub v hv)
              simp [topoAux, hfind, ih _ hsub']

theorem topological_sort_eq_none_of_cycle {g : Digraph} {S : List String} (hS : S ≠ [])
    (hin : ∀ v ∈ S, ∃ u ∈ S, (u, v) ∈ g.edges) (hsub : ∀ v ∈ S, v ∈ g.nodes) :
    topological_sort g = none :=
  topoAux_eq_none_of_cycle hS hin g.nodes.length g.nodes hsub

/-- C2: for every model configuration whose dependency graph contains a cycle
among the registered models (a nonempty node set `S` of registered model
names in which every node is the `from_model` of some dependency of another
node of `S`), and whose dependencies otherwise resolve (each `from_model` is
a registered model or `"scenario"`, so the missing-dependency check passes),
`_check_dependencies` — and hence `SosModelBuilder.finish` — raises
`NotImplementedError` with message "Graph of dependencies contains a cycle."
at build time, before any simulation runs. -/
theorem check_dependencies_cycle (model_list : List SectorModel)
    (hdeps : ∀ m ∈ model_list, ∀ d ∈ m.dependencies,
      d.from_model ∈ model_list.map SectorModel.name ∨ d.from_model = "scenario")
    (S : List String) (hSmodels : ∀ v ∈ S, v ∈ model_list.map SectorModel.name)
    (hcyc : HasCycle model_list S) :
    check_dependencies model_list = Except.error BuildError.cycleError ∧
    BuildError.message BuildError.cycleError = "Graph of dependencies contains a cycle." := by
  obtain ⟨hS, hin⟩ := hcyc
  obtain ⟨g, hg⟩ :=
    buildGraph_no_error hdeps (Digraph.addNodes ⟨[], []⟩ (model_list.map SectorModel.name))
  obtain ⟨_, hedges, hclosed, _⟩ := buildGraph_ok hg
  have hinit : (Digraph.addNodes ⟨[], []⟩ (model_list.map SectorModel.name)).Closed := by
    intro e he
    rw [Digraph.edges_addNodes] at he
    exact absurd he (List.not_mem_nil e)
  have hgclosed : g.Closed := hclosed hinit
  have hing : ∀ v ∈ S, ∃ u ∈ S, (u, v) ∈ g.edges := by
    intro v hv
    obtain ⟨u, huS, m, hm, hname, d, hd, hfrom⟩ := hin v hv
    refine ⟨u, huS, ?_⟩
    have := hedges m hm d hd
    rw [hname, hfrom] at this
    exact this
  have hsub : ∀ v ∈ S, v ∈ g.nodes := by
    intro v hv
    obtain ⟨u, _, hedge⟩ := hing v hv
    exact (hgclosed (u, v) hedge).2
  have hnone : topological_sort g = none := topological_sort_eq_none_of_cycle hS hing hsub
  refine ⟨?_, rfl⟩
  unfold check_dependencies
  rw [hg]
  simp [is_directed_acyclic_graph, hnone]

/-- Concrete cyclic configuration: a two-model cycle with no scenario source. -/
def cycleConfig : List SectorModel :=
  [⟨"water_supply", [⟨"energy_in", "energy_demand"⟩]⟩,
   ⟨"energy_demand", [⟨"water_in", "water_supply"⟩]⟩]

/-- Witness for C2: the two-model cycle fails to build with the
`NotImplementedError` message. -/
theorem check_dependencies_cycle_witness :
    check_dependencies cycleConfig = Except.error BuildError.cycleError ∧
    BuildError.message BuildError.cycleError = "Graph of dependencies contains a cycle." :=
  check_dependencies_cycle cycleConfig (by decide) ["water_supply", "energy_demand"]
    (by decide) ⟨by decide, by decide⟩

/-- A configuration whose single model declares a dependency on the
pseudo-model name `"scenario"`, which is not in the model collection. -/
def scenarioConfig : List SectorModel :=
  [⟨"water_supply", [⟨"raininess", "scenario"⟩]⟩]

/-- The dependency graph `_check_dependencies` builds for `scenarioConfig`. -/
def scenarioGraph : Digraph :=
  ⟨["water_supply", "scenario"], [("water_supply", "scenario")]⟩

/-- Counterexample to C8 as stated: `"water_supply"` declares a dependency
whose source model name `"scenario"` does not refer to any model in the model
collection, yet `_check_dependencies` succeeds — the build does not fail,
because the literal name `"scenario"` is exempted from the
missing-dependency check. -/
theorem check_dependencies_scenario_counterexample :
    "scenario" ∉ scenarioConfig.map SectorModel.name ∧
    check_dependencies scenarioConfig = Except.ok scenarioGraph :=
  ⟨by decide, rfl⟩

/-- C8 (amended): for every dependency spec whose source model name does not
refer to any model in the model collection **and is not the literal string
`"scenario"`**, `_check_dependencies` raises the missing-dependency
`AssertionError` at build time, before any simulation runs. -/
theorem check_dependencies_missing (model_list : List SectorModel)
    (hbad : ∃ m ∈ model_list, ∃ d ∈ m.dependencies,
      d.from_model ∉ model_list.map SectorModel.name ∧ d.from_model ≠ "scenario") :
    ∃ mn dn fm,
      check_dependencies model_list = Except.error (BuildError.missingDependency mn dn fm) ∧
      fm ∉ model_list.map SectorModel.name ∧ fm ≠ "scenario" := by
  obtain ⟨e, he⟩ :=
    buildGraph_fails hbad (Digraph.addNodes ⟨[], []⟩ (model_list.map SectorModel.name))
  obtain ⟨mn, dn, fm, hshape, h1, h2⟩ := buildGraph_error he
  refine ⟨mn, dn, fm, ?_, h1, h2⟩
  unfold check_dependencies
  rw [he, hshape]

/-- A configuration with a dependency on the nonexistent model
`"rain_model"` (not the `"scenario"` literal). -/
def missingConfig : List SectorModel :=
  [⟨"water_supply", [⟨"raininess", "rain_model"⟩]⟩]

/-- Witness for the amended C8: the dependency on the nonexistent
`"rain_model"` makes the build fail. -/
theorem check_dependencies_missing_witness :
    ∃ mn dn fm,
      check_dependencies missingConfig = Except.error (BuildError.missingDependency mn dn fm) ∧
      fm ∉ missingConfig.map SectorModel.name ∧ fm ≠ "scenario" :=
  check_dependencies_missing missingConfig
    ⟨⟨"water_supply", [⟨"raininess", "rain_model"⟩]⟩, by decide,
     ⟨"raininess", "rain_model"⟩, by decide, by decide, by decide⟩

/-- C10: for every configuration (with no model actually named
`"scenario"`), the dependency check never raises the missing-dependency
error for a dependency whose `from_model` is the literal `"scenario"`; and
whenever the check succeeds, every dependency on `"scenario"` has added the
edge `(model, "scenario")` to the graph, so `"scenario"` is a node of the
dependency graph. -/
theorem scenario_dependency_never_missing (model_list : List SectorModel)
    (hnoscen : "scenario" ∉ model_list.map SectorModel.name) :
    (∀ mn dn, check_dependencies model_list ≠
        Except.error (BuildError.missingDependency mn dn "scenario")) ∧
    (∀ g, check_dependencies model_list = Except.ok g →
      ∀ m ∈ model_list, ∀ d ∈ m.dependencies, d.from_model = "scenario" →
        (m.name, "scenario") ∈ g.edges ∧ "scenario" ∈ g.nodes) := by
  constructor
  · intro mn dn h
    unfold check_dependencies at h
    cases hb : buildGraph (model_list.map SectorModel.name)
        (Digraph.addNodes ⟨[], []⟩ (model_list.map SectorModel.name)) model_list with
    | error e =>
        simp only [hb] at h
        obtain ⟨mn', dn', fm, hshape, _, hfm⟩ := buildGraph_error hb
        injection h with h2
        rw [h2] at hshape
        injection hshape with _ _ hfm'
        exact hfm hfm'.symm
    | ok g =>
        simp only [hb] at h
        split at h
        · exact Except.noConfusion h
        · injection h with h2
          exact BuildError.noConfusion h2
  · intro g hok m hm d hd hfrom
    unfold check_dependencies at hok
    cases hb : buildGraph (model_list.map SectorModel.name)
        (Digraph.addNodes ⟨[], []⟩ (model_list.map SectorModel.name)) model_list with
    | error e =>
        simp only [hb] at hok
        exact Except.noConfusion hok
    | ok g2 =>
        simp only [hb] at hok
        split at hok
        · injection hok with h2
          subst h2
          obtain ⟨_, hedges, hclosed, _⟩ := buildGraph_ok hb
          have hinit : (Digraph.addNodes ⟨[], []⟩ (model_list.map SectorModel.name)).Closed := by
            intro e he
            rw [Digraph.edges_addNodes] at he
            exact absurd he (List.not_mem_nil e)
          have hedge := hedges m hm d hd
          rw [hfrom] at hedge
          exact ⟨hedge, ((hclosed hinit) _ hedge).2⟩
        · exact Except.noConfusion hok

/-- Witness for C10 at `scenarioConfig`: the dependency on `"scenario"`
passes the check and `"scenario"` appears in the built graph. -/
theorem scenario_dependency_never_missing_witness :
    ("water_supply", "scenario") ∈ scenarioGraph.edges ∧ "scenario" ∈ scenarioGraph.nodes :=
  (scenario_dependency_never_missing scenarioConfig (by decide)).2 scenarioGraph rfl
    ⟨"water_supply", [⟨"raininess", "scenario"⟩]⟩ (by decide)
    ⟨"raininess", "scenario"⟩ (by decide) rfl

/-- The run modes dispatched on by `SosModel.run`. `controller.py` imports
`SectorModelMode` from `smif.sector_model`, a module absent from the source
tree; the four mode values are modelled from their use sites in
`controller.py` (`SectorModelMode.static_simulation`, …). -/
inductive SectorModelMode where
  | static_simulation
  | sequential_simulation
  | static_optimisation
  | dynamic_optimisation
deriving DecidableEq, Repr

/-- The state of `SosModel` relevant to the verified claims:
`self._timesteps` (as assigned, unsorted) and `self.dependency_graph`. -/
structure SosModel where
  _timesteps : List Int
  dependency_graph : Digraph
deriving DecidableEq, Repr

/-- `SosModel._get_model_names_in_run_order` (`controller.py` 162-164):
`networkx.topological_sort(self.dependency_graph)`. -/
def SosModel.get_model_names_in_run_order (s : SosModel) : Option (List String) :=
  topological_sort s.dependency_graph

/-- `SosModel.determine_running_mode` (`controller.py` 166-188): more than
one timestep ⇒ sequential simulation; zero timesteps ⇒
`ValueError("No timesteps have been specified")`; exactly one ⇒ a single
static simulation. -/
def SosModel.determine_running_mode (s : SosModel) : Except String SectorModelMode :=
  if s._timesteps.length > 1 then Except.ok SectorModelMode.sequential_simulation
  else if s._timesteps.length = 0 then Except.error "No timesteps have been specified"
  else Except.ok SectorModelMode.static_simulation

/-- A Python value as compared inside `SosModel.run`: either the *bound
method object* `self.determine_running_mode` (the source omits the call
parentheses on line 117), or a `SectorModelMode` value. A bound method
compares unequal to every mode value. -/
inductive PyRunMode where
  | bound_method
  | mode (m : SectorModelMode)
deriving DecidableEq, Repr

/-- `SosModel.run` (`controller.py` 80-126) as written: `mode =
self.determine_running_mode` binds the method without calling it, so every
`mode == SectorModelMode...` comparison is false; each branch body is itself
a bare attribute reference (`self._run_static_sos_model`, no call), so no
branch does anything either way, and `run` returns `None` without raising,
whatever the timestep list is. -/
def SosModel.run (_s : SosModel) : Except String Unit :=
  let mode := PyRunMode.bound_method
  if mode = PyRunMode.mode SectorModelMode.static_simulation then Except.ok ()
  else if mode = PyRunMode.mode SectorModelMode.sequential_simulation then Except.ok ()
  else if mode = PyRunMode.mode SectorModelMode.static_optimisation then Except.ok ()
  else if mode = PyRunMode.mode SectorModelMode.dynamic_optimisation then Except.ok ()
  else Except.ok ()

/-- The `timesteps` property getter (`controller.py` 214-223):
`sorted(self._timesteps)`. -/
def SosModel.timesteps (s : SosModel) : List Int :=
  List.insertionSort (· ≤ ·) s._timesteps

/-- The `timesteps` property setter (`controller.py` 231-233): stores the
assigned list unchanged. -/
def SosModel.set_timesteps (s : SosModel) (value : List Int) : SosModel :=
  { s with _timesteps := value }

/-- The configuration for C1's failing input: `"water_supply"` consumes the
output of `"water_demand"` (its input `"demand"` has
`from_model = "water_demand"`). -/
def chainConfig : List SectorModel :=
  [⟨"water_demand", []⟩, ⟨"water_supply", [⟨"demand", "water_demand"⟩]⟩]

/-- The dependency graph `_check_dependencies` builds for `chainConfig`:
the edge runs from the consumer to the producer. -/
def chainGraph : Digraph :=
  ⟨["water_demand", "water_supply"], [("water_supply", "water_demand")]⟩

/-- A `SosModel` whose `dependency_graph` is the one the builder produced
for `chainConfig`. -/
def chainSosModel : SosModel := ⟨[2010], chainGraph⟩

/-- C1, evaluated at the failing input: `_check_dependencies` accepts the
acyclic two-model configuration, yet `_get_model_names_in_run_order` lists
the consumer `"water_supply"` *before* the producer `"water_demand"` whose
output it consumes — because the builder adds edges from sink to source and
`topological_sort` is taken without reversing. The claim (and the spec's
producers-before-consumers contract) requires the opposite order. -/
theorem run_order_consumer_before_producer :
    check_dependencies chainConfig = Except.ok chainGraph ∧
    chainSosModel.get_model_names_in_run_order = some ["water_supply", "water_demand"] :=
  ⟨rfl, rfl⟩

/-- A `SosModel` with an empty timestep list. -/
def emptyTimestepModel : SosModel := ⟨[], ⟨[], []⟩⟩

/-- C3, evaluated at the failing input: with an empty timestep list `run()`
returns without raising anything, because `mode = self.determine_running_mode`
references the method without calling it; `determine_running_mode` itself,
had it been called, raises `ValueError` — whose message moreover is
"No timesteps have been specified", not "No timesteps specified" — and would
select static simulation for exactly one timestep and sequential simulation
for more than one. -/
theorem run_ignores_empty_timesteps :
    emptyTimestepModel.run = Except.ok () ∧
    emptyTimestepModel.determine_running_mode =
      Except.error "No timesteps have been specified" ∧
    (SosModel.mk [2010] ⟨[], []⟩).determine_running_mode =
      Except.ok SectorModelMode.static_simulation ∧
    (SosModel.mk [2010, 2015] ⟨[], []⟩).determine_running_mode =
      Except.ok SectorModelMode.sequential_simulation :=
  ⟨rfl, rfl, rfl, rfl⟩

/-- C9: after assigning any list through the `timesteps` setter, the
`timesteps` property returns exactly the assigned timesteps sorted in
ascending order — every operation reading through the property observes a
sorted permutation of the assigned list, regardless of assignment order. -/
theorem timesteps_property_sorted (s : SosModel) (value : List Int) :
    ((s.set_timesteps value).timesteps).Sorted (· ≤ ·) ∧
    (s.set_timesteps value).timesteps.Perm value :=
  ⟨List.sorted_insertionSort (· ≤ ·) value, List.perm_insertionSort (· ≤ ·) value⟩

/-- A planned intervention as fed to `PreSpecified`:
`{'name': ..., 'build_year': ...}`. -/
structure Intervention where
  name : String
  build_year : Int
deriving DecidableEq, Repr

/-- Python dict lookup in the intervention register, keyed by intervention
name; the value of interest is `data['technical_lifetime']['value']`, the
technical lifetime. -/
def lookupRegister : List (String × Int) → String → Option Int
  | [], _ => none
  | (k, v) :: rest, n => if k = n then some v else lookupRegister rest n

/-- The `PreSpecified` decision module (`decision.py` 249-364): the
model-run timesteps, the intervention register (name ↦ technical lifetime)
and the planned interventions. -/
structure PreSpecified where
  timesteps : List Int
  register : List (String × Int)
  planned : List Intervention
deriving DecidableEq, Repr

/-- Python `list.index`: position of the first occurrence of `t`. -/
def listIndex (t : Int) : List Int → Nat
  | [] => 0
  | x :: rest => if x = t then 0 else listIndex t rest + 1

/-- `PreSpecified.buildable` (`decision.py` 321-342): raise
`ValueError("Timestep not in model timesteps")` when `timestep` is not a
model timestep; otherwise return whether `build_year` is strictly below
`next_year` — the entry after the (first) position of `timestep`, or
`timestep + 1` when that position is the last. -/
def PreSpecified.buildable (p : PreSpecified) (build_year timestep : Int) :
    Except String Bool :=
  if timestep ∉ p.timesteps then Except.error "Timestep not in model timesteps"
  else
    Except.ok (decide (build_year <
      (if listIndex timestep p.timesteps = p.timesteps.length - 1
       then timestep + 1
       else p.timesteps.getD (listIndex timestep p.timesteps + 1) 0)))

/-- The "next timestep after `T`" of a model horizon, in the sense of the
spec: the entry following the first occurrence of `T`, or `T + 1` when `T`
is the final entry. -/
def nextTimestepAfter : List Int → Int → Int
  | [], t => t + 1
  | x :: rest, t =>
      if x = t then (match rest with | [] => t + 1 | y :: _ => y)
      else nextTimestepAfter rest t

theorem listIndex_lt {t : Int} {l : List Int} (ht : t ∈ l) : listIndex t l < l.length := by
  induction l with
  | nil => cases ht
  | cons x rest ih =>
      by_cases hx : x = t
      · simp [listIndex, hx]
      · have ht' : t ∈ rest := by
          rcases List.mem_cons.mp ht with h | h
          · exact absurd h.symm hx
          · exact h
        simp only [listIndex, if_neg hx, List.length_cons]
        exact Nat.succ_lt_succ (ih ht')

/-- The `next_year` computed by `buildable` coincides with the spec's "next
timestep after `T`". -/
theorem next_year_eq (l : List Int) (t : Int) (ht : t ∈ l) :
    (if listIndex t l = l.length - 1 then t + 1 else l.getD (listIndex t l + 1) 0)
      = nextTimestepAfter l t := by
  induction l with
  | nil => cases ht
  | cons x rest ih =>
      by_cases hx : x = t
      · cases rest with
        | nil => simp [listIndex, nextTimestepAfter, hx]
        | cons y rest' => simp [listIndex, nextTimestepAfter, hx]
      · have ht' : t ∈ rest := by
          rcases List.mem_cons.mp ht with h | h
          · exact absurd h.symm hx
          · exact h
        have hlt : listIndex t rest < rest.length := listIndex_lt ht'
        simp only [listIndex, if_neg hx, List.length_cons, nextTimestepAfter]
        rw [← ih ht']
        have hL : rest.length + 1 - 1 = rest.length := by omega
        rw [hL]
        by_cases hc : listIndex t rest + 1 = rest.length
        · rw [if_pos hc, if_pos (by omega)]
        · rw [if_neg hc, if_neg (by omega), List.getD_cons_succ]

/-- C4: for every ascending model horizon and every timestep `T` in it,
`PreSpecified.buildable(build_year, T)` returns `True` exactly when
`build_year` is strictly less than the next timestep after `T`, the next of
the final timestep being `T + 1` (so late-horizon builds count at the final
timestep). -/
theorem buildable_iff_lt_next (p : PreSpecified) (hsort : p.timesteps.Chain' (· < ·))
    (build_year T : Int) (hT : T ∈ p.timesteps) :
    p.buildable build_year T = Except.ok true ↔
      build_year < nextTimestepAfter p.timesteps T := by
  unfold PreSpecified.buildable
  rw [if_neg (not_not_intro hT), next_year_eq _ _ hT]
  constructor
  · intro h
    injection h with h2
    exact of_decide_eq_true h2
  · intro h
    rw [decide_eq_true h]

/-- The horizon of the spec's pre-specified-planning example. -/
def horizonPre : PreSpecified := ⟨[2010, 2011, 2015], [], []⟩

/-- Witness for C4: `build_year = 2011` is buildable at the final timestep
2015 of the horizon `[2010, 2011, 2015]`. -/
theorem buildable_iff_lt_next_witness :
    horizonPre.buildable 2011 2015 = Except.ok true :=
  (buildable_iff_lt_next horizonPre (by norm_num [horizonPre, List.chain'_cons])
    2011 2015 (by decide)).mpr (by decide)

/-- `PreSpecified.within_lifetime` (`decision.py` 344-364): raise
`ValueError` for a negative lifetime, otherwise an intervention is still
active iff `timestep ≤ build_year + lifetime`. -/
def PreSpecified.within_lifetime (_p : PreSpecified) (build_year timestep lifetime : Int) :
    Except String Bool :=
  if lifetime < 0 then Except.error "The value of lifetime cannot be negative"
  else Except.ok (decide (timestep ≤ build_year + lifetime))

/-- The loop of `PreSpecified.get_decision` over a list of planned
interventions: look the lifetime up in the register (a missing name is a
Python `KeyError`), then keep the intervention when `buildable` and — short
circuiting, as Python `and` does — `within_lifetime` both return `True`. -/
def PreSpecified.getDecisionFrom (p : PreSpecified) (timestep : Int) :
    List Intervention → Except String (List Intervention)
  | [] => Except.ok []
  | iv :: rest =>
      match lookupRegister p.register iv.name with
      | none => Except.error ("KeyError: " ++ iv.name)
      | some lifetime =>
          match p.buildable iv.build_year timestep with
          | Except.error e => Except.error e
          | Except.ok b =>
              if b then
                match p.within_lifetime iv.build_year timestep lifetime with
                | Except.error e => Except.error e
                | Except.ok w =>
                    match p.getDecisionFrom timestep rest with
                    | Except.error e => Except.error e
                    | Except.ok tail => Except.ok (if w then iv :: tail else tail)
              else
                match p.getDecisionFrom timestep rest with
                | Except.error e => Except.error e
                | Except.ok tail => Except.ok tail

/-- `PreSpecified.get_decision` (`decision.py` 283-319): the planned
interventions that are buildable at `timestep` and within their technical
lifetime there. -/
def PreSpecified.get_decision (p : PreSpecified) (timestep : Int) :
    Except String (List Intervention) :=
  p.getDecisionFrom timestep p.planned

/-- Whether an `Except`-returning check returned `True`. -/
def isOkTrue : Except String Bool → Bool
  | Except.ok true => true
  | _ => false

/-- The selection predicate of `get_decision`: buildable at the timestep and
within the registered technical lifetime there. -/
def decisionKeep (p : PreSpecified) (timestep : Int) (iv : Intervention) : Bool :=
  isOkTrue (p.buildable iv.build_year timestep) &&
  isOkTrue (p.within_lifetime iv.build_year timestep
    ((lookupRegister p.register iv.name).getD 0))

theorem getDecisionFrom_filters (p : PreSpecified) (T : Int) (hT : T ∈ p.timesteps)
    (ivs : List Intervention)
    (hreg : ∀ iv ∈ ivs, ∃ life, lookupRegister p.register iv.name = some life ∧ 0 ≤ life) :
    p.getDecisionFrom T ivs = Except.ok (ivs.filter (decisionKeep p T)) := by
  induction ivs with
  | nil => rfl
  | cons iv rest ih =>
      obtain ⟨life, hlook, hlife⟩ := hreg iv (List.mem_cons_self iv rest)
      have htail := ih (fun iv' h => hreg iv' (List.mem_cons_of_mem iv h))
      obtain ⟨bb, hbb⟩ : ∃ bb, p.buildable iv.build_year T = Except.ok bb := by
        unfold PreSpecified.buildable
        rw [if_neg (not_not_intro hT)]
        exact ⟨_, rfl⟩
      obtain ⟨ww, hww⟩ : ∃ ww, p.within_lifetime iv.build_year T life = Except.ok ww := by
        unfold PreSpecified.within_lifetime
        rw [if_neg (by omega)]
        exact ⟨_, rfl⟩
      have hkeep : decisionKeep p T iv = (bb && ww) := by
        unfold decisionKeep
        rw [hbb, hlook]
        simp only [Option.getD_some]
        rw [hww]
        cases bb <;> cases ww <;> rfl
      simp only [PreSpecified.getDecisionFrom, hlook, hbb, hww, htail]
      rw [List.filter_cons, hkeep]
      cases bb <;> cases ww <;> simp

/-- C5: for every non-negative lifetime, `within_lifetime(build_year, T,
lifetime)` returns `True` exactly when `build_year + lifetime ≥ T`; and,
when every planned intervention's lifetime is registered and non-negative
and `T` is a model timestep, `get_decision` returns exactly the planned
interventions that are both buildable at `T` and within their lifetime at
`T`, in order. -/
theorem within_lifetime_iff_and_get_decision_filters (p : PreSpecified) (T : Int)
    (hT : T ∈ p.timesteps)
    (hreg : ∀ iv ∈ p.planned,
      ∃ life, lookupRegister p.register iv.name = some life ∧ 0 ≤ life) :
    (∀ build_year timestep lifetime : Int, 0 ≤ lifetime →
      (p.within_lifetime build_year timestep lifetime = Except.ok true ↔
        build_year + lifetime ≥ timestep)) ∧
    p.get_decision T = Except.ok (p.planned.filter (decisionKeep p T)) := by
  constructor
  · intro b t life hlife
    unfold PreSpecified.within_lifetime
    rw [if_neg (by omega)]
    constructor
    · intro h
      injection h with h2
      have := of_decide_eq_true h2
      omega
    · intro h
      have hdec : decide (t ≤ b + life) = true := decide_eq_true (by omega)
      rw [hdec]
  · exact getDecisionFrom_filters p T hT p.planned hreg

/-- The spec's planning example: `intervention_a` with `build_year = 2011`
and technical lifetime 3, in the horizon `[2010, 2011, 2015]`. -/
def planPre : PreSpecified :=
  ⟨[2010, 2011, 2015], [("intervention_a", 3)], [⟨"intervention_a", 2011⟩]⟩

/-- Witness for C5: at timestep 2011 the intervention is buildable
(2011 < 2015) and within lifetime (2011 ≤ 2011 + 3), so it is returned. -/
theorem get_decision_witness :
    planPre.get_decision 2011 = Except.ok [⟨"intervention_a", 2011⟩] :=
  ((within_lifetime_iff_and_get_decision_filters planPre 2011 (by decide)
    (by
      intro iv hiv
      have hiv' : iv = ⟨"intervention_a", 2011⟩ := by
        simpa [planPre] using hiv
      subst hiv'
      exact ⟨3, rfl, by decide⟩)).2).trans (by rfl)

/-- `PreSpecified._get_next_decision_iteration` (`decision.py` 264-265):
the single bundle `{0: timesteps}`. -/
def PreSpecified.get_next_decision_iteration (p : PreSpecified) :
    List (Nat × List Int) :=
  [(0, p.timesteps)]

/-- `DecisionManager` (`decision.py` 19-141): the model-run timesteps and
the decision modules set up from the strategies —
`_set_up_decision_modules` only ever appends `PreSpecified` modules. -/
structure DecisionManager where
  timesteps : List Int
  decision_modules : List PreSpecified
deriving DecidableEq, Repr

/-- `DecisionManager.decision_loop` (`decision.py` 87-111): with decision
modules present, one bundle per module; with none, the single bundle
`{0: [x for x in self._timesteps]}`. -/
def DecisionManager.decision_loop (dm : DecisionManager) :
    List (List (Nat × List Int)) :=
  if dm.decision_modules.length > 0 then
    dm.decision_modules.map PreSpecified.get_next_decision_iteration
  else
    [[(0, dm.timesteps)]]

/-- C7: a `DecisionManager` constructed with no decision modules yields
exactly one bundle, mapping decision iteration `0` to the whole timestep
horizon in order. -/
theorem decision_loop_no_modules (timesteps : List Int) :
    (DecisionManager.mk timesteps []).decision_loop = [[(0, timesteps)]] := rfl

/-- One set of model outputs produced by one convergence iteration:
output name ↦ array of values (arrays over ℚ stand in for numpy arrays). -/
abbrev ResultSet := List (String × List Rat)

/-- Lookup of an output array by name in a result set. -/
def lookupOutput : ResultSet → String → Option (List Rat)
  | [], _ => none
  | (k, v) :: rest, n => if k = n then some v else lookupOutput rest n

/-- Elementwise closeness per the spec's combined comparison: absolute
difference within the absolute tolerance, or relative difference within the
relative tolerance. -/
def arraysClose (atol rtol : Rat) (xs ys : List Rat) : Bool :=
  decide (xs.length = ys.length) &&
  (xs.zip ys).all fun pr =>
    decide (|pr.1 - pr.2| ≤ atol) || decide (|pr.1 - pr.2| ≤ rtol * |pr.2|)

/-- Two result sets are close when every output array of the current set is
elementwise close to the like-named array of the previous set. -/
def resultsClose (atol rtol : Rat) (curr prev : ResultSet) : Bool :=
  curr.all fun o =>
    match lookupOutput prev o.1 with
    | none => false
    | some arr => arraysClose atol rtol o.2 arr

/-- Modelled from the spec: the `ModelSet` convergence state. The `ModelSet`
class itself is absent from the source tree (only its tests under
`tests/model/test_sos_model.py` are present); per §3 of the spec,
`iterated_results` records, for each member model, the ordered sequence of
output result sets produced across successive convergence iterations,
together with the configured tolerances. -/
structure ModelSet where
  iterated_results : List (String × List ResultSet)
  absolute_tolerance : Rat
  relative_tolerance : Rat
deriving DecidableEq, Repr

/-- Modelled from the spec: `ModelSet.converged()` — absent from the source
tree, only its tests are present. Per §4.2 of the spec, convergence compares
the two most recent result sets of every member model under the combined
absolute/relative tolerance test, and convergence after a single iteration
is never reported: a member with fewer than two recorded result sets makes
the answer `False`. -/
def ModelSet.converged (ms : ModelSet) : Bool :=
  if ms.iterated_results.any (fun mr => decide (mr.2.length < 2)) then false
  else ms.iterated_results.all fun mr =>
    match mr.2.reverse with
    | latest :: previous :: _ =>
        resultsClose ms.absolute_tolerance ms.relative_tolerance latest previous
    | _ => false

/-- C6: convergence is never reported from a single result set — whenever
some member model has fewer than two recorded result sets (in particular
when every member has exactly one), `converged()` returns `False`; at least
two successive result sets per member are required before convergence can
be reported. -/
theorem converged_false_of_single_result_set (ms : ModelSet)
    (h : ∃ mr ∈ ms.iterated_results, mr.2.length < 2) :
    ms.converged = false := by
  unfold ModelSet.converged
  have hany : ms.iterated_results.any (fun mr => decide (mr.2.length < 2)) = true := by
    rw [List.any_eq_true]
    obtain ⟨mr, hm, hlen⟩ := h
    exact ⟨mr, hm, decide_eq_true hlen⟩
  rw [if_pos hany]

/-- The situation of `test_converged_first_iteration`: one member model with
a single (guessed, zero-valued) result set recorded. -/
def singleIterationModelSet : ModelSet :=
  ⟨[("water_supply", [[("cost", [0]), ("water", [0])]])], 1 / 100000000, 1 / 100000⟩

/-- Witness for C6: with exactly one result set recorded for the single
member model, `converged()` is `False`. -/
theorem converged_false_of_single_result_set_witness :
    singleIterationModelSet.converged = false :=
  converged_false_of_single_result_set singleIterationModelSet
    ⟨("water_supply", [[("cost", [0]), ("water", [0])]]), by decide, by decide⟩

end Smif
